import Mathlib

/-!
Verification of CreateSG (src/CreateSG.py): a generator of NBT structure
files for Create-mod mechanical arms and chain conveyors.

The Python data (nbtlib tag trees) is shallowly embedded as the inductive
type `Tag`.  Python dicts are ordered association lists, Python lists are
Lean lists, and machine integers are unbounded `Int` (Python ints are
unbounded; nbtlib range checks are never hit by the claims under study).
The two `Float` constants in the templates are always the literal 0.0 and
are never computed with, so `Tag.float` carries the integer value 0.

Mutating operations of the Python classes (`ArmNBT.add_interaction_point`,
`ConveyorNBT.add_connection`) become pure state transformers; the fallible
one returns `Except String`.  `generate_connected_conveyors` is modelled as
the list of (filename, conveyor state) pairs it saves, in save order.
Python `str.replace` (which replaces every occurrence of the pattern, and
leaves the string unchanged when the pattern does not occur) is embedded as
`strReplace`.
-/

/-- The nbtlib tag-tree node type, restricted to the constructors the
program uses: Byte, Int, Float, String, IntArray, List, Compound. -/
inductive Tag where
  | byte : Int → Tag
  | int : Int → Tag
  | float : Int → Tag
  | string : String → Tag
  | intArray : List Int → Tag
  | list : List Tag → Tag
  | compound : List (String × Tag) → Tag

/-- Lookup in an ordered association list (Python dict access `d[k]`). -/
def assocFind (k : String) : List (String × Tag) → Option Tag
  | [] => none
  | kv :: rest => if kv.1 = k then some kv.2 else assocFind k rest

/-- Pointwise update of an association list at a key (Python dicts have no
duplicate keys, so updating every matching entry agrees with dict update). -/
def assocModify (k : String) (f : Tag → Tag) : List (String × Tag) → List (String × Tag)
  | [] => []
  | kv :: rest =>
      if kv.1 = k then (kv.1, f kv.2) :: assocModify k f rest
      else kv :: assocModify k f rest

/-- Update a list at an index, identity when out of range. -/
def listModify (f : Tag → Tag) : Nat → List Tag → List Tag
  | _, [] => []
  | 0, t :: rest => f t :: rest
  | Nat.succ i, t :: rest => t :: listModify f i rest

/-- Python `d[k]` on a compound tag. -/
def Tag.getKey : Tag → String → Option Tag
  | Tag.compound kvs, k => assocFind k kvs
  | _, _ => none

/-- In-place update of one key of a compound tag, as a pure function. -/
def Tag.modifyKey (k : String) (f : Tag → Tag) : Tag → Tag
  | Tag.compound kvs => Tag.compound (assocModify k f kvs)
  | t => t

/-- Python `l[i]` on a list tag. -/
def Tag.getIdx : Tag → Nat → Option Tag
  | Tag.list ts, i => ts[i]?
  | _, _ => none

/-- In-place update of one index of a list tag, as a pure function. -/
def Tag.modifyIdx (i : Nat) (f : Tag → Tag) : Tag → Tag
  | Tag.list ts => Tag.list (listModify f i ts)
  | t => t

/-- Python `l.append(v)` on a list tag, as a pure function. -/
def Tag.appendToList (v : Tag) : Tag → Tag
  | Tag.list ts => Tag.list (ts ++ [v])
  | t => t

/-- One step of a navigation path through a tag tree. -/
inductive PathStep where
  | key : String → PathStep
  | idx : Nat → PathStep

/-- Follow a navigation path (`nbt[a][b][i]...`). -/
def getPath : List PathStep → Tag → Option Tag
  | [], t => some t
  | PathStep.key k :: p, t => (t.getKey k).bind (getPath p)
  | PathStep.idx i :: p, t => (t.getIdx i).bind (getPath p)

/-- Apply a pure update at the end of a navigation path. -/
def modifyPath : List PathStep → (Tag → Tag) → Tag → Tag
  | [], f, t => f t
  | PathStep.key k :: p, f, t => t.modifyKey k (modifyPath p f)
  | PathStep.idx i :: p, f, t => t.modifyIdx i (modifyPath p f)

/-- The navigation path of the Python expression
`self.nbt[''][ 'blocks'][0]['nbt']['InteractionPoints']`. -/
def ipPath : List PathStep :=
  [PathStep.key "", PathStep.key "blocks", PathStep.idx 0,
   PathStep.key "nbt", PathStep.key "InteractionPoints"]

/-- The navigation path of the Python expression
`self.nbt[''][ 'blocks'][0]['nbt']['Connections']`. -/
def connPath : List PathStep :=
  [PathStep.key "", PathStep.key "blocks", PathStep.idx 0,
   PathStep.key "nbt", PathStep.key "Connections"]

/-- `calculate_relative_pos` of src/CreateSG.py:
`return [p - o for p, o in zip(pos, origin)]`. -/
def calculate_relative_pos (pos origin : List Int) : List Int :=
  List.zipWith (fun p o => p - o) pos origin

/-- `create_arm_template` of src/CreateSG.py: the fixed mechanical-arm
template tree, with root compound key the empty string. -/
def create_arm_template : Tag :=
  Tag.compound
    [("", Tag.compound
      [ ("size", Tag.list [Tag.int 1, Tag.int 1, Tag.int 1]),
        ("blocks", Tag.list
          [ Tag.compound
              [ ("state", Tag.int 0),
                ("pos", Tag.list [Tag.int 0, Tag.int 0, Tag.int 0]),
                ("nbt", Tag.compound
                  [ ("NeedsSpeedUpdate", Tag.byte 1),
                    ("Phase", Tag.string "SEARCH_INPUTS"),
                    ("InteractionPoints", Tag.list []),
                    ("id", Tag.string "create:mechanical_arm"),
                    ("Speed", Tag.float 0),
                    ("Powered", Tag.byte 0),
                    ("Goggles", Tag.byte 0),
                    ("ScrollValue", Tag.int 0),
                    ("MovementProgress", Tag.float 0),
                    ("TargetPointIndex", Tag.int 0),
                    ("HeldItem", Tag.compound []) ]) ] ]),
        ("palette", Tag.list
          [ Tag.compound
              [ ("Name", Tag.string "create:mechanical_arm"),
                ("Properties", Tag.compound [("ceiling", Tag.string "false")]) ] ]),
        ("entities", Tag.list []),
        ("DataVersion", Tag.int 3955) ]) ]

/-- `create_conveyor_template` of src/CreateSG.py: the fixed chain-conveyor
template tree. -/
def create_conveyor_template : Tag :=
  Tag.compound
    [("", Tag.compound
      [ ("size", Tag.list [Tag.int 1, Tag.int 1, Tag.int 1]),
        ("blocks", Tag.list
          [ Tag.compound
              [ ("state", Tag.int 0),
                ("pos", Tag.list [Tag.int 0, Tag.int 0, Tag.int 0]),
                ("nbt", Tag.compound
                  [ ("LoopingPackages", Tag.list []),
                    ("NeedsSpeedUpdate", Tag.byte 1),
                    ("id", Tag.string "create:chain_conveyor"),
                    ("Speed", Tag.float 0),
                    ("TravellingPackages", Tag.list []),
                    ("Connections", Tag.list []) ]) ] ]),
        ("palette", Tag.list
          [ Tag.compound [("Name", Tag.string "create:chain_conveyor")] ]),
        ("entities", Tag.list []),
        ("DataVersion", Tag.int 3955) ]) ]

/-- `BaseNBT.__init__` origin handling:
`self.origin = list(origin) if origin else [0, 0, 0]`.
`none` models passing no origin (Python `None`); `some []` models a falsy
empty sequence; any nonempty sequence is truthy and copied as given. -/
def originOrDefault (origin : Option (List Int)) : List Int :=
  match origin with
  | some o => if o = [] then [0, 0, 0] else o
  | none => [0, 0, 0]

/-- State of a Python `ArmNBT` object: its origin and its nbt tree. -/
structure ArmNBT where
  origin : List Int
  nbt : Tag

/-- `ArmNBT(origin)`: store the (defaulted) origin and build the arm
template. -/
def ArmNBT.make (origin : Option (List Int)) : ArmNBT :=
  { origin := originOrDefault origin, nbt := create_arm_template }

/-- `ArmNBT.add_interaction_point`: reject a mode outside TAKE/DEPOSIT with
a ValueError (message as in the source, inner quotes dropped), otherwise
append the new InteractionPoint compound at the end of the
InteractionPoints list. -/
def ArmNBT.add_interaction_point (a : ArmNBT) (type_str mode : String)
    (pos : List Int) : Except String ArmNBT :=
  if mode ∉ (["TAKE", "DEPOSIT"] : List String) then
    Except.error "Mode must be TAKE or DEPOSIT"
  else
    let relative_pos := calculate_relative_pos pos a.origin
    let interaction_point : Tag := Tag.compound
      [ ("Type", Tag.string type_str),
        ("Mode", Tag.string mode),
        ("Pos", Tag.intArray relative_pos) ]
    Except.ok { a with nbt := modifyPath ipPath (Tag.appendToList interaction_point) a.nbt }

/-- State of a Python `ConveyorNBT` object. -/
structure ConveyorNBT where
  origin : List Int
  nbt : Tag

/-- `ConveyorNBT(origin)`. -/
def ConveyorNBT.make (origin : Option (List Int)) : ConveyorNBT :=
  { origin := originOrDefault origin, nbt := create_conveyor_template }

/-- The argument of `ConveyorNBT.add_connection`, after the duck-typed
dispatch `isinstance(connection_pos[0], (list, tuple))` of the source: a
single coordinate (first element an int) or a list of coordinates (first
element a list/tuple).  The dispatch reads element 0, so it only succeeds
on nonempty input; theorems about `multi` carry that hypothesis. -/
inductive ConnInput where
  | single : List Int → ConnInput
  | multi : List (List Int) → ConnInput

/-- `ConveyorNBT.add_connection`: normalize to a list of positions, then
for each position append the relativized coordinate as an IntArray at the
end of the Connections list. -/
def ConveyorNBT.add_connection (c : ConveyorNBT) (connection_pos : ConnInput) : ConveyorNBT :=
  let positions := match connection_pos with
    | ConnInput.single p => [p]
    | ConnInput.multi ps => ps
  positions.foldl
    (fun acc pos =>
      let relative_pos := calculate_relative_pos pos acc.origin
      let connection := Tag.intArray relative_pos
      { acc with nbt := modifyPath connPath (Tag.appendToList connection) acc.nbt })
    c

/-- Fuel-driven core of Python `str.replace(pat, rep)`: scan left to right;
at a match of `pat` emit `rep` and skip the matched characters, otherwise
emit one character and continue.  Fuel equal to the length of the input is
always sufficient since every step consumes at least one character. -/
def replaceListF (pat rep : List Char) : Nat → List Char → List Char
  | _, [] => []
  | 0, s => s
  | Nat.succ fuel, c :: rest =>
      if pat ≠ [] ∧ pat.isPrefixOf (c :: rest) then
        rep ++ replaceListF pat rep fuel (List.drop (pat.length - 1) rest)
      else
        c :: replaceListF pat rep fuel rest

/-- Python `s.replace(pat, rep)` (for nonempty `pat`): every occurrence of
`pat` in `s` is replaced by `rep`; when `pat` does not occur, `s` is
returned unchanged. -/
def strReplace (s pat rep : String) : String :=
  String.mk (replaceListF pat.data rep.data s.data.length s.data)

/-- Whether `pat` occurs as a contiguous substring of `s`. -/
def hasSubstr (pat : List Char) : List Char → Bool
  | [] => pat.isEmpty
  | c :: rest => pat.isPrefixOf (c :: rest) || hasSubstr pat rest

/-- `onlyEndMatch pat s`: in `s ++ pat`, no occurrence of `pat` starts at a
position inside `s` (so the only occurrence is the final one). -/
def onlyEndMatch (pat : List Char) : List Char → Bool
  | [] => true
  | c :: s => !(pat.isPrefixOf ((c :: s) ++ pat)) && onlyEndMatch pat s

/-- The inverse-file loop of `generate_connected_conveyors`
(`for i, conn in enumerate(conn_list, 1): ...`), modelled as the list of
(filename, conveyor state) pairs it saves, carrying the 1-based counter. -/
def inverseFiles (origin_pos : List Int) (base_filename : String) :
    Nat → List (List Int) → List (String × ConveyorNBT)
  | _, [] => []
  | i, conn :: rest =>
      (strReplace base_filename ".nbt" ("_" ++ toString i ++ ".nbt"),
       (ConveyorNBT.make (some conn)).add_connection (ConnInput.single origin_pos))
        :: inverseFiles origin_pos base_filename (i + 1) rest

/-- `generate_connected_conveyors` of src/CreateSG.py, modelled as the list
of files it saves, in save order: the main conveyor (origin `origin_pos`,
one connection per element of the normalized connection list) first, then
one inverse conveyor per connection (origin the connection itself, a single
connection back to `origin_pos`). -/
def generate_connected_conveyors (connections : ConnInput)
    (origin : Option (List Int)) (base_filename : String) :
    List (String × ConveyorNBT) :=
  let origin_pos := originOrDefault origin
  let conn_list := match connections with
    | ConnInput.single c => [c]
    | ConnInput.multi cs => cs
  let main_conveyor := conn_list.foldl
    (fun mc conn => mc.add_connection (ConnInput.single conn))
    (ConveyorNBT.make (some origin_pos))
  (strReplace base_filename ".nbt" "_main.nbt", main_conveyor)
    :: inverseFiles origin_pos base_filename 1 conn_list

/-- The InteractionPoints list of an arm state
(`arm.nbt[''][ 'blocks'][0]['nbt']['InteractionPoints']`). -/
def interactionPointsOf (a : ArmNBT) : Option Tag :=
  getPath ipPath a.nbt

/-- The Connections list of a conveyor state. -/
def connectionsOf (c : ConveyorNBT) : Option Tag :=
  getPath connPath c.nbt

/-- The size field of a template tree. -/
def sizeOf' (t : Tag) : Option Tag :=
  getPath [PathStep.key "", PathStep.key "size"] t

/-- The blocks list of a template tree. -/
def blocksOf (t : Tag) : Option Tag :=
  getPath [PathStep.key "", PathStep.key "blocks"] t

/-- The palette list of a template tree. -/
def paletteOf (t : Tag) : Option Tag :=
  getPath [PathStep.key "", PathStep.key "palette"] t

/-- The entities list of a template tree. -/
def entitiesOf (t : Tag) : Option Tag :=
  getPath [PathStep.key "", PathStep.key "entities"] t

/-- Length of a list tag. -/
def tagLen : Tag → Option Nat
  | Tag.list ts => some ts.length
  | _ => none

/-- The arm template with its InteractionPoints list set to `l`; every
other field is the fresh-template constant. -/
def armWith (l : List Tag) : Tag :=
  modifyPath ipPath (fun _ => Tag.list l) create_arm_template

/-- The conveyor template with its Connections list set to `l`. -/
def convWith (l : List Tag) : Tag :=
  modifyPath connPath (fun _ => Tag.list l) create_conveyor_template

/-- Arm states reachable by the public API: construction followed by any
sequence of successful add_interaction_point calls. -/
inductive ArmReachable : ArmNBT → Prop where
  | make : ∀ o, ArmReachable (ArmNBT.make o)
  | step : ∀ a t m p a', ArmReachable a →
      a.add_interaction_point t m p = Except.ok a' → ArmReachable a'

/-- Conveyor states reachable by the public API: construction followed by
any sequence of add_connection calls. -/
inductive ConvReachable : ConveyorNBT → Prop where
  | make : ∀ o, ConvReachable (ConveyorNBT.make o)
  | step : ∀ c i, ConvReachable c → ConvReachable (c.add_connection i)

theorem assocFind_assocModify (k : String) (f : Tag → Tag)
    (kvs : List (String × Tag)) :
    assocFind k (assocModify k f kvs) = (assocFind k kvs).map f := by
  induction kvs with
  | nil => rfl
  | cons kv rest ih =>
      by_cases h : kv.1 = k
      · simp [assocModify, assocFind, h]
      · simp [assocModify, assocFind, h, ih]

theorem listModify_getElem (f : Tag → Tag) (i : Nat) (ts : List Tag) :
    (listModify f i ts)[i]? = ts[i]?.map f := by
  induction ts generalizing i with
  | nil => simp [listModify]
  | cons t rest ih =>
      cases i with
      | zero => simp [listModify]
      | succ i => simp [listModify, ih]

theorem getKey_modifyKey (k : String) (f : Tag → Tag) (t : Tag) :
    (Tag.modifyKey k f t).getKey k = (t.getKey k).map f := by
  cases t <;> simp [Tag.modifyKey, Tag.getKey, assocFind_assocModify]

theorem getIdx_modifyIdx (i : Nat) (f : Tag → Tag) (t : Tag) :
    (Tag.modifyIdx i f t).getIdx i = (t.getIdx i).map f := by
  cases t <;> simp [Tag.modifyIdx, Tag.getIdx, listModify_getElem]

theorem getPath_modifyPath (p : List PathStep) (f : Tag → Tag) (t : Tag) :
    getPath p (modifyPath p f t) = (getPath p t).map f := by
  induction p generalizing t with
  | nil => rfl
  | cons s p ih =>
      cases s with
      | key k =>
          cases h : t.getKey k <;>
            simp [getPath, modifyPath, getKey_modifyKey, h, ih]
      | idx i =>
          cases h : t.getIdx i <;>
            simp [getPath, modifyPath, getIdx_modifyIdx, h, ih]

theorem connectionsOf_append_step (c : ConveyorNBT) (v : Tag) :
    connectionsOf { c with nbt := modifyPath connPath (Tag.appendToList v) c.nbt }
      = (connectionsOf c).map (Tag.appendToList v) := by
  simp [connectionsOf, getPath_modifyPath]

/-- One iteration of the add_connection loop body. -/
def connStep (acc : ConveyorNBT) (pos : List Int) : ConveyorNBT :=
  { acc with nbt := modifyPath connPath (Tag.appendToList (Tag.intArray (calculate_relative_pos pos acc.origin))) acc.nbt }

theorem add_connection_eq_foldl (c : ConveyorNBT) (ps : List (List Int)) :
    c.add_connection (ConnInput.multi ps) = ps.foldl connStep c := rfl

theorem add_connection_single_eq (c : ConveyorNBT) (p : List Int) :
    c.add_connection (ConnInput.single p) = connStep c p := rfl

theorem connectionsOf_foldl (ps : List (List Int)) (c : ConveyorNBT) (l : List Tag)
    (h : connectionsOf c = some (Tag.list l)) :
    connectionsOf (ps.foldl connStep c)
      = some (Tag.list (l ++ ps.map (fun q => Tag.intArray (calculate_relative_pos q c.origin))))
    ∧ (ps.foldl connStep c).origin = c.origin := by
  induction ps generalizing c l with
  | nil => simpa using h
  | cons q rest ih =>
      have hstep : connectionsOf (connStep c q)
          = some (Tag.list (l ++ [Tag.intArray (calculate_relative_pos q c.origin)])) := by
        rw [connStep, connectionsOf_append_step, h]
        rfl
      have h2 := ih (connStep c q) _ hstep
      simpa [connStep] using h2

theorem armWith_append (l : List Tag) (v : Tag) :
    modifyPath ipPath (Tag.appendToList v) (armWith l) = armWith (l ++ [v]) := rfl

theorem convWith_append (l : List Tag) (v : Tag) :
    modifyPath connPath (Tag.appendToList v) (convWith l) = convWith (l ++ [v]) := rfl

theorem convWith_step (c : ConveyorNBT) (l : List Tag) (p : List Int)
    (h : c.nbt = convWith l) :
    (connStep c p).nbt = convWith (l ++ [Tag.intArray (calculate_relative_pos p c.origin)]) := by
  simp only [connStep]
  rw [h]
  exact convWith_append l _

theorem conv_foldl_nbt (ps : List (List Int)) :
    ∀ c l, c.nbt = convWith l → ∃ l', (ps.foldl connStep c).nbt = convWith l' := by
  induction ps with
  | nil => intro c l h; exact ⟨l, h⟩
  | cons q rest ih =>
      intro c l h
      exact ih (connStep c q) _ (convWith_step c l q h)

theorem conv_reachable_nbt (c : ConveyorNBT) (h : ConvReachable c) :
    ∃ l, c.nbt = convWith l := by
  induction h with
  | make o => exact ⟨[], rfl⟩
  | step c i _ ih =>
      obtain ⟨l, hl⟩ := ih
      cases i with
      | single p =>
          rw [add_connection_single_eq]
          exact ⟨l ++ [Tag.intArray (calculate_relative_pos p c.origin)], convWith_step c l p hl⟩
      | multi ps =>
          rw [add_connection_eq_foldl]
          exact conv_foldl_nbt ps c l hl

theorem arm_reachable_nbt (a : ArmNBT) (h : ArmReachable a) :
    ∃ l, a.nbt = armWith l := by
  induction h with
  | make o => exact ⟨[], rfl⟩
  | step a t m p a' _ hok ih =>
      obtain ⟨l, hl⟩ := ih
      by_cases hm : m ∈ (["TAKE", "DEPOSIT"] : List String)
      · simp only [ArmNBT.add_interaction_point] at hok
        rw [if_neg (not_not_intro hm)] at hok
        injection hok with hok
        refine ⟨l ++ [Tag.compound
          [("Type", Tag.string t), ("Mode", Tag.string m),
           ("Pos", Tag.intArray (calculate_relative_pos p a.origin))]], ?_⟩
        rw [← hok]
        show modifyPath ipPath (Tag.appendToList _) a.nbt = _
        rw [hl]
        exact armWith_append l _
      · simp [ArmNBT.add_interaction_point, hm] at hok

theorem armWith_fields (l : List Tag) :
    sizeOf' (armWith l) = some (Tag.list [Tag.int 1, Tag.int 1, Tag.int 1])
    ∧ (blocksOf (armWith l)).bind tagLen = some 1
    ∧ (paletteOf (armWith l)).bind tagLen = some 1
    ∧ entitiesOf (armWith l) = some (Tag.list []) :=
  ⟨rfl, rfl, rfl, rfl⟩

theorem convWith_fields (l : List Tag) :
    sizeOf' (convWith l) = some (Tag.list [Tag.int 1, Tag.int 1, Tag.int 1])
    ∧ (blocksOf (convWith l)).bind tagLen = some 1
    ∧ (paletteOf (convWith l)).bind tagLen = some 1
    ∧ entitiesOf (convWith l) = some (Tag.list []) :=
  ⟨rfl, rfl, rfl, rfl⟩

theorem replaceListF_nil_input (pat rep : List Char) (fuel : Nat) :
    replaceListF pat rep fuel [] = [] := by
  cases fuel <;> rfl

theorem replaceListF_no_occur (pat rep : List Char) (fuel : Nat) (s : List Char)
    (h : hasSubstr pat s = false) : replaceListF pat rep fuel s = s := by
  induction s generalizing fuel with
  | nil => exact replaceListF_nil_input pat rep fuel
  | cons c rest ih =>
      simp only [hasSubstr, Bool.or_eq_false_iff] at h
      cases fuel with
      | zero => rfl
      | succ f => simp [replaceListF, h.1, ih f h.2]

theorem replaceListF_append_pat (pat rep : List Char) (hp : pat ≠ []) :
    ∀ (s : List Char) (fuel : Nat), (s ++ pat).length ≤ fuel →
      onlyEndMatch pat s = true →
      replaceListF pat rep fuel (s ++ pat) = s ++ rep := by
  intro s
  induction s with
  | nil =>
      intro fuel hf _
      cases pat with
      | nil => exact absurd rfl hp
      | cons p pr =>
          cases fuel with
          | zero => simp at hf
          | succ f =>
              simp only [List.nil_append, replaceListF]
              rw [if_pos ⟨by simp, by simp [List.isPrefixOf_iff_prefix]⟩]
              simp [List.drop_length, replaceListF_nil_input]
  | cons c s ih =>
      intro fuel hf hend
      simp only [onlyEndMatch, Bool.and_eq_true, Bool.not_eq_true'] at hend
      cases fuel with
      | zero => simp at hf
      | succ f =>
          simp only [List.cons_append, replaceListF]
          rw [if_neg]
          · have hf' : (s ++ pat).length ≤ f := by
              simp only [List.cons_append, List.length_cons] at hf
              omega
            exact congrArg (c :: ·) (ih f hf' hend.2)
          · intro hcontra
            have := hcontra.2
            rw [List.cons_append] at hend
            simp [hend.1] at this

theorem strReplace_no_occur (s pat rep : String)
    (h : hasSubstr pat.data s.data = false) : strReplace s pat rep = s := by
  unfold strReplace
  rw [replaceListF_no_occur _ _ _ _ h]

theorem strReplace_append_pat (stem pat rep : String) (hp : pat.data ≠ [])
    (h : onlyEndMatch pat.data stem.data = true) :
    strReplace (stem ++ pat) pat rep = stem ++ rep := by
  unfold strReplace
  apply String.ext
  simp only [String.data_append]
  exact replaceListF_append_pat pat.data rep.data hp stem.data _ le_rfl h

/-- C1: for all integer triples, calculate_relative_pos returns the
component-wise difference pos - origin, with negative components allowed
and no clamping; in particular the spec example [5,5,5] - [1,2,3] = [4,3,2]
holds.  The function is a pure function of its arguments. -/
theorem calculate_relative_pos_componentwise :
    (∀ p0 p1 p2 o0 o1 o2 : Int,
      calculate_relative_pos [p0, p1, p2] [o0, o1, o2] = [p0 - o0, p1 - o1, p2 - o2])
    ∧ calculate_relative_pos [5, 5, 5] [1, 2, 3] = [4, 3, 2] :=
  ⟨fun _ _ _ _ _ _ => rfl, rfl⟩

/-- C3 counterexample: a call that receives mismatched-length triples does
not fail at all: calculate_relative_pos [1,2,3] [4,5] silently zips and
returns the truncated list [-3,-3] of length 2, contradicting the claim
that an InvalidArgument error is raised immediately at the call. -/
theorem mismatched_lengths_counterexample :
    calculate_relative_pos [1, 2, 3] [4, 5] = [-3, -3]
    ∧ (calculate_relative_pos [1, 2, 3] [4, 5]).length = 2 :=
  ⟨rfl, rfl⟩

/-- C3 amended: on mismatched-length inputs no error is raised; the code
silently zips, returning the component-wise differences over the common
prefix: the result has length min(len pos, len origin) and entry i equals
pos[i] - origin[i] exactly when both inputs have an entry at i. -/
theorem mismatched_lengths_truncate (pos origin : List Int) :
    (calculate_relative_pos pos origin).length = min pos.length origin.length
    ∧ ∀ i : Nat, (calculate_relative_pos pos origin)[i]?
        = pos[i]?.bind (fun p => origin[i]?.map (fun o => p - o)) := by
  constructor
  · simp [calculate_relative_pos]
  · intro i
    cases hp : pos[i]? <;> cases ho : origin[i]? <;>
      simp [calculate_relative_pos, List.getElem?_zipWith', hp, ho]

/-- C5: add_connection with a single triple appends exactly one relative
Connection; with a sequence (nonempty, since the duck-typed dispatch reads
element 0) it appends one relative Connection per element in the given
order; the spec example on origin [1,0,0] yields [[0,0,0],[-1,2,0]]. -/
theorem add_connection_appends (c : ConveyorNBT) (l : List Tag) (p : List Int)
    (ps : List (List Int)) (h : connectionsOf c = some (Tag.list l)) (_hps : ps ≠ []) :
    connectionsOf (c.add_connection (ConnInput.single p))
      = some (Tag.list (l ++ [Tag.intArray (calculate_relative_pos p c.origin)]))
    ∧ connectionsOf (c.add_connection (ConnInput.multi ps))
      = some (Tag.list (l ++ ps.map (fun q => Tag.intArray (calculate_relative_pos q c.origin))))
    ∧ connectionsOf ((ConveyorNBT.make (some [1, 0, 0])).add_connection
        (ConnInput.multi [[1, 0, 0], [0, 2, 0]]))
      = some (Tag.list [Tag.intArray [0, 0, 0], Tag.intArray [-1, 2, 0]]) := by
  refine ⟨?_, ?_, rfl⟩
  · rw [add_connection_single_eq]
    have h1 := (connectionsOf_foldl [p] c l h).1
    simpa using h1
  · rw [add_connection_eq_foldl]
    exact (connectionsOf_foldl ps c l h).1

/-- C5 witness: the single-triple case evaluated at the spec example
addConnection([1,2,3]) on origin [1,0,0], via the theorem. -/
theorem add_connection_appends_witness :
    connectionsOf ((ConveyorNBT.make (some [1, 0, 0])).add_connection
        (ConnInput.single [1, 2, 3]))
      = some (Tag.list [Tag.intArray [0, 2, 3]]) := by
  have h := (add_connection_appends (ConveyorNBT.make (some [1, 0, 0])) [] [1, 2, 3]
    [[1, 0, 0], [0, 2, 0]] rfl (by simp)).1
  exact h.trans rfl

/-- C6: add_interaction_point with mode TAKE or DEPOSIT returns the updated
arm; exactly one InteractionPoint with the given Type and Mode and with Pos
the relativized position is appended at the end, all previous entries and
their order preserved, and the origin is unchanged. -/
theorem add_interaction_point_appends (a : ArmNBT) (l : List Tag) (t m : String)
    (p0 p1 p2 o0 o1 o2 : Int) (hm : m = "TAKE" ∨ m = "DEPOSIT")
    (ho : a.origin = [o0, o1, o2]) (hl : interactionPointsOf a = some (Tag.list l)) :
    ∃ a', a.add_interaction_point t m [p0, p1, p2] = Except.ok a'
      ∧ a'.origin = a.origin
      ∧ interactionPointsOf a' = some (Tag.list (l ++ [Tag.compound
          [("Type", Tag.string t), ("Mode", Tag.string m),
           ("Pos", Tag.intArray [p0 - o0, p1 - o1, p2 - o2])]])) := by
  have hmem : m ∈ (["TAKE", "DEPOSIT"] : List String) := by
    rcases hm with h' | h' <;> simp [h']
  refine ⟨{ a with nbt := modifyPath ipPath (Tag.appendToList (Tag.compound
      [("Type", Tag.string t), ("Mode", Tag.string m),
       ("Pos", Tag.intArray (calculate_relative_pos [p0, p1, p2] a.origin))])) a.nbt },
    ?_, rfl, ?_⟩
  · simp only [ArmNBT.add_interaction_point]
    rw [if_neg (not_not_intro hmem)]
  · have hstep : interactionPointsOf { a with nbt := modifyPath ipPath (Tag.appendToList
        (Tag.compound [("Type", Tag.string t), ("Mode", Tag.string m),
         ("Pos", Tag.intArray (calculate_relative_pos [p0, p1, p2] a.origin))])) a.nbt }
        = (interactionPointsOf a).map (Tag.appendToList (Tag.compound
          [("Type", Tag.string t), ("Mode", Tag.string m),
           ("Pos", Tag.intArray (calculate_relative_pos [p0, p1, p2] a.origin))])) := by
      simp [interactionPointsOf, getPath_modifyPath]
    rw [hstep, hl, ho]
    rfl

/-- C6 witness: the spec example, mode TAKE, type create:depot, pos [3,2,0]
on origin [1,1,1] yields exactly one InteractionPoint with Pos [2,1,-1]. -/
theorem add_interaction_point_appends_witness :
    ∃ a', (ArmNBT.make (some [1, 1, 1])).add_interaction_point
        "create:depot" "TAKE" [3, 2, 0] = Except.ok a'
      ∧ a'.origin = [1, 1, 1]
      ∧ interactionPointsOf a' = some (Tag.list [Tag.compound
          [("Type", Tag.string "create:depot"), ("Mode", Tag.string "TAKE"),
           ("Pos", Tag.intArray [2, 1, -1])]]) := by
  obtain ⟨a', h1, h2, h3⟩ := add_interaction_point_appends (ArmNBT.make (some [1, 1, 1]))
    [] "create:depot" "TAKE" 3 2 0 1 1 1 (Or.inl rfl) rfl rfl
  exact ⟨a', h1, h2.trans rfl, h3.trans rfl⟩

/-- C7: a mode other than TAKE and DEPOSIT makes add_interaction_point fail
with the ValueError and produce no updated state; since the operation is a
pure function of the state, the caller's arm (and its InteractionPoints
list) is unchanged by the failed call. -/
theorem add_interaction_point_invalid_mode (a : ArmNBT) (t m : String)
    (pos : List Int) (h1 : m ≠ "TAKE") (h2 : m ≠ "DEPOSIT") :
    a.add_interaction_point t m pos = Except.error "Mode must be TAKE or DEPOSIT"
    ∧ ∀ a', a.add_interaction_point t m pos ≠ Except.ok a' := by
  have hm : m ∉ (["TAKE", "DEPOSIT"] : List String) := by simp [h1, h2]
  have he : a.add_interaction_point t m pos
      = Except.error "Mode must be TAKE or DEPOSIT" := by
    simp only [ArmNBT.add_interaction_point]
    rw [if_pos hm]
  exact ⟨he, fun a' hc => by rw [he] at hc; exact Except.noConfusion hc⟩

/-- C7 witness: the spec example, mode INVALID fails with the error. -/
theorem add_interaction_point_invalid_mode_witness :
    (ArmNBT.make none).add_interaction_point "create:depot" "INVALID" [0, 0, 0]
      = Except.error "Mode must be TAKE or DEPOSIT" :=
  (add_interaction_point_invalid_mode (ArmNBT.make none) "create:depot" "INVALID"
    [0, 0, 0] (by decide) (by decide)).1

/-- C10: a falsy origin argument (omitted, or an empty sequence) yields the
default origin [0,0,0]; a truthy (nonempty) sequence is used as given. -/
theorem falsy_origin_default :
    (ArmNBT.make (some [])).origin = [0, 0, 0]
    ∧ (ConveyorNBT.make (some [])).origin = [0, 0, 0]
    ∧ (ArmNBT.make none).origin = [0, 0, 0]
    ∧ (ConveyorNBT.make none).origin = [0, 0, 0]
    ∧ ∀ o : List Int, o ≠ [] →
        (ArmNBT.make (some o)).origin = o ∧ (ConveyorNBT.make (some o)).origin = o := by
  refine ⟨rfl, rfl, rfl, rfl, fun o ho => ?_⟩
  constructor <;> simp [ArmNBT.make, ConveyorNBT.make, originOrDefault, ho]

/-- C10 witness: a nonempty origin [1,2,3] is stored as given. -/
theorem falsy_origin_default_witness :
    (ArmNBT.make (some [1, 2, 3])).origin = [1, 2, 3] :=
  (falsy_origin_default.2.2.2.2 [1, 2, 3] (by decide)).1

theorem inverse_conveyor_eval (c0 c1 c2 o0 o1 o2 : Int) :
    ((ConveyorNBT.make (some [c0, c1, c2])).add_connection
        (ConnInput.single [o0, o1, o2])).origin = [c0, c1, c2]
    ∧ connectionsOf ((ConveyorNBT.make (some [c0, c1, c2])).add_connection
        (ConnInput.single [o0, o1, o2]))
      = some (Tag.list [Tag.intArray [o0 - c0, o1 - c1, o2 - c2]]) :=
  ⟨rfl, rfl⟩

theorem inverseFiles_getElem (o : List Int) (base : String) (cs : List (List Int)) :
    ∀ j i : Nat, (inverseFiles o base j cs)[i]?
      = (cs[i]?).map (fun c =>
          (strReplace base ".nbt" ("_" ++ toString (j + i) ++ ".nbt"),
           (ConveyorNBT.make (some c)).add_connection (ConnInput.single o))) := by
  induction cs with
  | nil => intro j i; simp [inverseFiles]
  | cons c rest ih =>
      intro j i
      cases i with
      | zero => simp [inverseFiles]
      | succ i =>
          simp only [inverseFiles, List.getElem?_cons_succ]
          rw [ih (j + 1) i]
          have hji : j + 1 + i = j + (i + 1) := by omega
          rw [hji]

theorem generate_eq_cons (cs : List (List Int)) (o : Option (List Int))
    (base : String) :
    generate_connected_conveyors (ConnInput.multi cs) o base
      = (strReplace base ".nbt" "_main.nbt",
         cs.foldl (fun mc conn => mc.add_connection (ConnInput.single conn))
           (ConveyorNBT.make (some (originOrDefault o))))
        :: inverseFiles (originOrDefault o) base 1 cs := rfl

theorem generate_getElem_succ (cs : List (List Int)) (o : Option (List Int))
    (base : String) (i : Nat) :
    (generate_connected_conveyors (ConnInput.multi cs) o base)[i + 1]?
      = (inverseFiles (originOrDefault o) base 1 cs)[i]? := by
  rw [generate_eq_cons, List.getElem?_cons_succ]

/-- C2: for the connection c = [c0,c1,c2] at 1-based index i (position i+1
in the save-order output, after the main file), the inverse conveyor has
origin c itself and exactly one Connection equal to origin - c; with the
default origin (0,0,0) this Connection is the negation of c.  The
hypothesis that every connection is nonempty reflects the duck-typed
dispatch, which reads element 0 of each connection. -/
theorem inverse_conveyor_files (cs : List (List Int)) (base : String) (i : Nat)
    (c0 c1 c2 o0 o1 o2 : Int) (_hall : ∀ c ∈ cs, c ≠ [])
    (hc : cs[i]? = some [c0, c1, c2]) :
    ((generate_connected_conveyors (ConnInput.multi cs) (some [o0, o1, o2]) base)[i + 1]?).map
        (fun f => (f.2.origin, connectionsOf f.2))
      = some ([c0, c1, c2], some (Tag.list [Tag.intArray [o0 - c0, o1 - c1, o2 - c2]]))
    ∧ ((generate_connected_conveyors (ConnInput.multi cs) none base)[i + 1]?).map
        (fun f => (f.2.origin, connectionsOf f.2))
      = some ([c0, c1, c2], some (Tag.list [Tag.intArray [-c0, -c1, -c2]])) := by
  constructor
  · rw [generate_getElem_succ, inverseFiles_getElem, hc]
    show (some _).map _ = _
    simp only [Option.map_map, Option.map_some']
    exact congrArg some (Prod.ext (inverse_conveyor_eval c0 c1 c2 o0 o1 o2).1
      (inverse_conveyor_eval c0 c1 c2 o0 o1 o2).2)
  · rw [generate_getElem_succ, inverseFiles_getElem, hc]
    show (some _).map _ = _
    simp only [Option.map_map, Option.map_some']
    have h2 := (inverse_conveyor_eval c0 c1 c2 0 0 0).2
    simp only [zero_sub] at h2
    exact congrArg some (Prod.ext (inverse_conveyor_eval c0 c1 c2 0 0 0).1 h2)

/-- C2 witness: the spec example, connections [[100,0,0],[-100,0,0]] with
origin [50,0,0]: inverse file 1 has origin [100,0,0] and Connections
[[-50,0,0]]; inverse file 2 has origin [-100,0,0] and Connections
[[150,0,0]]. -/
theorem inverse_conveyor_files_witness :
    ((generate_connected_conveyors (ConnInput.multi [[100, 0, 0], [-100, 0, 0]])
        (some [50, 0, 0]) "conveyor.nbt")[1]?).map
        (fun f => (f.2.origin, connectionsOf f.2))
      = some ([100, 0, 0], some (Tag.list [Tag.intArray [-50, 0, 0]]))
    ∧ ((generate_connected_conveyors (ConnInput.multi [[100, 0, 0], [-100, 0, 0]])
        (some [50, 0, 0]) "conveyor.nbt")[2]?).map
        (fun f => (f.2.origin, connectionsOf f.2))
      = some ([-100, 0, 0], some (Tag.list [Tag.intArray [150, 0, 0]])) := by
  constructor
  · have h := (inverse_conveyor_files [[100, 0, 0], [-100, 0, 0]] "conveyor.nbt" 0
      100 0 0 50 0 0 (by decide) rfl).1
    exact h.trans rfl
  · have h := (inverse_conveyor_files [[100, 0, 0], [-100, 0, 0]] "conveyor.nbt" 1
      (-100) 0 0 50 0 0 (by decide) rfl).1
    exact h.trans rfl

/-- C9: every arm or conveyor state reachable through construction and the
append operations differs from the fresh template only in its
InteractionPoints / Connections list; in particular size stays [1,1,1],
the blocks and palette lists keep exactly one entry and the entities list
stays empty. -/
theorem reachable_template_invariants :
    (∀ a, ArmReachable a →
        (∃ l, a.nbt = armWith l)
        ∧ sizeOf' a.nbt = some (Tag.list [Tag.int 1, Tag.int 1, Tag.int 1])
        ∧ (blocksOf a.nbt).bind tagLen = some 1
        ∧ (paletteOf a.nbt).bind tagLen = some 1
        ∧ entitiesOf a.nbt = some (Tag.list []))
    ∧ (∀ c, ConvReachable c →
        (∃ l, c.nbt = convWith l)
        ∧ sizeOf' c.nbt = some (Tag.list [Tag.int 1, Tag.int 1, Tag.int 1])
        ∧ (blocksOf c.nbt).bind tagLen = some 1
        ∧ (paletteOf c.nbt).bind tagLen = some 1
        ∧ entitiesOf c.nbt = some (Tag.list [])) := by
  constructor
  · intro a h
    obtain ⟨l, hl⟩ := arm_reachable_nbt a h
    refine ⟨⟨l, hl⟩, ?_, ?_, ?_, ?_⟩ <;> rw [hl]
    · exact (armWith_fields l).1
    · exact (armWith_fields l).2.1
    · exact (armWith_fields l).2.2.1
    · exact (armWith_fields l).2.2.2
  · intro c h
    obtain ⟨l, hl⟩ := conv_reachable_nbt c h
    refine ⟨⟨l, hl⟩, ?_, ?_, ?_, ?_⟩ <;> rw [hl]
    · exact (convWith_fields l).1
    · exact (convWith_fields l).2.1
    · exact (convWith_fields l).2.2.1
    · exact (convWith_fields l).2.2.2

/-- C9 witness: the invariants instantiated at a freshly built arm and at a
conveyor after one append. -/
theorem reachable_template_invariants_witness :
    sizeOf' (ArmNBT.make none).nbt = some (Tag.list [Tag.int 1, Tag.int 1, Tag.int 1])
    ∧ entitiesOf ((ConveyorNBT.make none).add_connection
        (ConnInput.single [1, 2, 3])).nbt = some (Tag.list []) :=
  ⟨(reachable_template_invariants.1 (ArmNBT.make none) (ArmReachable.make none)).2.1,
   (reachable_template_invariants.2 ((ConveyorNBT.make none).add_connection
       (ConnInput.single [1, 2, 3]))
     (ConvReachable.step _ _ (ConvReachable.make none))).2.2.2.2⟩

/-- C4 counterexample: with base name "conveyor", which has no ".nbt"
suffix, nothing is appended: `str.replace` finds no occurrence and both the
main file and the inverse file are saved to "conveyor" itself (the same
path), not to "conveyor_main.nbt" as the claim requires. -/
theorem filename_suffix_counterexample :
    (generate_connected_conveyors (ConnInput.single [10, 0, 0]) none "conveyor").map Prod.fst
      = ["conveyor", "conveyor"]
    ∧ ("conveyor" : String) ≠ "conveyor_main.nbt" := by
  constructor
  · rfl
  · decide

theorem inverseFiles_map_fst (o : List Int) (base : String) :
    ∀ (cs : List (List Int)) (j : Nat),
      (inverseFiles o base j cs).map Prod.fst
        = (List.range' j cs.length).map
            (fun i => strReplace base ".nbt" ("_" ++ toString i ++ ".nbt")) := by
  intro cs
  induction cs with
  | nil => intro j; rfl
  | cons c rest ih =>
      intro j
      show (strReplace base ".nbt" ("_" ++ toString j ++ ".nbt"))
          :: (inverseFiles o base (j + 1) rest).map Prod.fst = _
      rw [ih (j + 1)]
      rfl

/-- C4 amended: each saved file name is the base name with every occurrence
of the substring ".nbt" replaced ("_main.nbt" for the main file,
"_i.nbt" for the inverse file of 1-based index i).  When the base name
ends in ".nbt" and contains no other occurrence, this replaces the
trailing suffix as the original claim says; but when ".nbt" does not occur
in the base name, the base name is used unchanged for every file (nothing
is appended, so all files share one path).  The nonemptiness hypotheses
reflect the duck-typed dispatch reading element 0. -/
theorem filename_suffix_amended (stem : String) (cs : List (List Int))
    (o : Option (List Int)) (_hne : cs ≠ []) (_hall : ∀ c ∈ cs, c ≠ []) :
    (onlyEndMatch ".nbt".data stem.data = true →
      (generate_connected_conveyors (ConnInput.multi cs) o (stem ++ ".nbt")).map Prod.fst
        = (stem ++ "_main.nbt")
          :: (List.range' 1 cs.length).map (fun i => stem ++ ("_" ++ toString i ++ ".nbt")))
    ∧ (hasSubstr ".nbt".data stem.data = false →
      (generate_connected_conveyors (ConnInput.multi cs) o stem).map Prod.fst
        = stem :: (List.range' 1 cs.length).map (fun _ => stem)) := by
  have hp : (".nbt" : String).data ≠ [] := by decide
  constructor
  · intro h
    rw [generate_eq_cons, List.map_cons, inverseFiles_map_fst]
    rw [strReplace_append_pat stem ".nbt" "_main.nbt" hp h]
    have hfun : (fun i : Nat => strReplace (stem ++ ".nbt") ".nbt" ("_" ++ toString i ++ ".nbt"))
        = fun i : Nat => stem ++ ("_" ++ toString i ++ ".nbt") :=
      funext fun i => strReplace_append_pat stem ".nbt" _ hp h
    rw [hfun]
  · intro h
    rw [generate_eq_cons, List.map_cons, inverseFiles_map_fst]
    rw [strReplace_no_occur stem ".nbt" "_main.nbt" h]
    have hfun : (fun i : Nat => strReplace stem ".nbt" ("_" ++ toString i ++ ".nbt"))
        = fun _ : Nat => stem :=
      funext fun i => strReplace_no_occur stem ".nbt" _ h
    rw [hfun]

/-- C4 witness: base "conveyor.nbt" (stem "conveyor"): the main file goes
to "conveyor_main.nbt" and the single inverse file to "conveyor_1.nbt". -/
theorem filename_suffix_amended_witness :
    (generate_connected_conveyors (ConnInput.multi [[10, 0, 0]]) none
        ("conveyor" ++ ".nbt")).map Prod.fst
      = ("conveyor" ++ "_main.nbt")
        :: (List.range' 1 1).map (fun i => "conveyor" ++ ("_" ++ toString i ++ ".nbt")) :=
  (filename_suffix_amended "conveyor" [[10, 0, 0]] none (by decide) (by decide)).1 (by decide)
